import Mathlib

/-!
Shallow embedding of the request lifecycle engine of `src/native/src/req.rs`
(erqwest). Pure data is modelled directly; the asynchronous parts
(`tokio::select!` races, channel receives, transport futures) are modelled by
making the scheduler's choices explicit as event lists consumed by the
engine's functions. External library behaviour (UTF-8 validation, URL
parsing, header parsing, reqwest errors) is abstracted as input data carrying
the outcome of the corresponding library call.
-/

namespace Erqwest

/-- Byte strings, as lists of bytes. -/
abbrev Bytes := List Nat

/-- `enum ErrorCode` in req.rs. -/
inductive ErrorCode
  | cancelled
  | url
  | request
  | redirect
  | connect
  | timeout
  | body
  | unknown
deriving DecidableEq, Repr

/-- `struct Error { code, reason }` in req.rs. -/
structure Error where
  code : ErrorCode
  reason : String
deriving DecidableEq, Repr

/-- The classification of a `reqwest::Error` as tested by the chain of
`is_timeout`/`is_redirect`/`is_connect`/`is_request`/`is_body` in
`impl From<reqwest::Error> for Error`.  We model a reqwest error by the
(unique, first-matching) classification it reports plus its display string. -/
inductive RqKind
  | timeout
  | redirect
  | connect
  | request
  | body
  | unknown
deriving DecidableEq, Repr

/-- A `reqwest::Error`, abstracted to its classification and message. -/
structure RqErr where
  kind : RqKind
  reason : String
deriving DecidableEq, Repr

/-- `impl From<reqwest::Error> for Error` in req.rs: the 1:1 mapping from the
transport's own classification to the error taxonomy. -/
def rqErrToError (e : RqErr) : Error :=
  { code :=
      match e.kind with
      | .timeout => .timeout
      | .redirect => .redirect
      | .connect => .connect
      | .request => .request
      | .body => .body
      | .unknown => .unknown
    reason := e.reason }

/-- The head of a `reqwest::Response`: status and headers (the body is
delivered separately, either via `bytes()` or via `chunk()`). -/
structure RespHead where
  status : Nat
  headers : List (Bytes × Bytes)
deriving DecidableEq, Repr

/-- `struct Resp { status, headers, body }` in req.rs: the encoded response
map sent to the caller.  `body = none` is the status+headers-only response
used in streamed mode. -/
structure Resp where
  status : Nat
  headers : List (Bytes × Bytes)
  body : Option Bytes
deriving DecidableEq, Repr

/-- The messages sent to the caller's pid.  Every message in req.rs is a tuple
tagged `erqwest_response` carrying the caller ref; we record only the variable
payload: `next` (upload backpressure token), `reply` (a `Resp`), `chunk` and
`fin` (response body chunks), `error`. -/
inductive Msg
  | next
  | reply (r : Resp)
  | chunk (b : Bytes)
  | fin (b : Bytes)
  | error (e : Error)
deriving DecidableEq, Repr

/-- Terminal messages: a `reply` carrying a complete body (Complete mode),
`fin`, or `error`.  The status+headers-only `reply` of streamed mode has
`body = none` and is not terminal. -/
def Msg.isTerminal : Msg → Bool
  | .reply r => r.body.isSome
  | .fin _ => true
  | .error _ => true
  | _ => false

/-- How the engine's reply slot (`caller_ref`) ended:
`terminal` = consumed by `reply_final` (a terminal message was sent),
`silent` = consumed by `reply_none` (silent abandonment, no message),
`pending` = the modelled schedule ended before the engine finished. -/
inductive Outcome
  | terminal
  | silent
  | pending
deriving DecidableEq, Repr

/-! ### `ReqData::decode` (build phase)

The build phase calls external parsers: `str::from_utf8` on the url binary,
`reqwest::Url::parse`, `HeaderName::from_bytes` / `HeaderValue::from_bytes`
per header, and `decode_as_binary` on a Complete body.  We abstract each
call's outcome as input data, keeping the source's sequencing and error
classification. -/

/-- Outcome of `str::from_utf8` + `reqwest::Url::parse` on the url binary.
The failure constructors carry the library error's display string. -/
inductive UrlParse
  | invalidUtf8 (reason : String)
  | parseError (reason : String)
  | ok
deriving DecidableEq, Repr

/-- Outcome of `HeaderName::from_bytes` / `HeaderValue::from_bytes` on one
header pair (name checked first). -/
inductive HeaderParse
  | badName (reason : String)
  | badValue (reason : String)
  | ok
deriving DecidableEq, Repr

/-- The `body` field of `ReqData` with the outcome of `decode_as_binary`
abstracted: `completeOk`/`completeBad` for `ReqBody::Complete`, `stream` for
`ReqBody::Stream`, `none` for an absent body. -/
inductive BodyDecode
  | noBody
  | completeOk
  | completeBad
  | stream
deriving DecidableEq, Repr

/-- The parse-relevant content of a `ReqData`. -/
structure DecodeInput where
  url : UrlParse
  headers : List HeaderParse
  body : BodyDecode
deriving DecidableEq, Repr

/-- The header loop of `ReqData::decode`: headers are processed in order and
the first malformed name or value aborts with a `Request` error. -/
def decodeHeaders : List HeaderParse → Except Error Unit
  | [] => .ok ()
  | .badName r :: _ => .error { code := .request, reason := r }
  | .badValue r :: _ => .error { code := .request, reason := r }
  | .ok :: rest => decodeHeaders rest

/-- `ReqData::decode` in req.rs: UTF-8-check and parse the url (failure →
`Url` error), then parse each header (failure → `Request` error), then attach
the body (a Complete body that is not valid iodata → `Request` error). -/
def decode (i : DecodeInput) : Except Error Unit := do
  match i.url with
  | .invalidUtf8 r => throw { code := .url, reason := r }
  | .parseError r => throw { code := .url, reason := r }
  | .ok => pure ()
  decodeHeaders i.headers
  match i.body with
  | .completeBad => throw { code := .request, reason := "bad request body" }
  | _ => pure ()

/-! ### `Req::stream_req` (race phase)

`stream_req` loops on a `tokio::select!` between `rx.next()` (the next
`SendCmd` from the caller, disabled once `fin`) and the in-flight response
future.  The scheduler's choice of which branch fires, and the outcome of the
inner `select!` between `tx.feed(..)` and the response future, are explicit
events. -/

/-- The response future's outcome: a response head or a `reqwest::Error`. -/
abbrev RespRes := Except RqErr RespHead

instance {ε α : Type} [DecidableEq ε] [DecidableEq α] : DecidableEq (Except ε α) := fun a b =>
  match a, b with
  | .ok x, .ok y => if h : x = y then .isTrue (by rw [h]) else .isFalse (by simp [h])
  | .error x, .error y => if h : x = y then .isTrue (by rw [h]) else .isFalse (by simp [h])
  | .ok _, .error _ => .isFalse (by simp)
  | .error _, .ok _ => .isFalse (by simp)

/-- Outcome of the inner `select!` racing `tx.feed(Ok(data))` against the
response future during a `Send` command:
`fed` = the feed completed with `Ok(())` (a `next` message follows);
`respFirst r` = the response resolved before the feed completed;
`feedFail ferr r` = the feed resolved with `Err` — the branch's `Ok(())`
pattern does not match, so the branch is disabled and the select keeps
waiting for the response (`r`, or `none` if it never resolves); the feed
error `ferr` is discarded. -/
inductive FeedResult
  | fed
  | respFirst (r : RespRes)
  | feedFail (ferr : String) (r : Option RespRes)
deriving DecidableEq, Repr

/-- One scheduler event for the `stream_req` loop:
`send data fr` = `rx.next()` yields `SendCmd::Send` (`data = none` models a
term that is not valid iodata), with `fr` the inner race outcome;
`finish` = `rx.next()` yields `SendCmd::FinishSend`;
`closed` = `rx.next()` yields `None` (caller closed the command channel);
`resp r more` = the response branch fires; `more` is whether the subsequent
`rx.next().await` (taken when `fin` is still false) yields `Some`. -/
inductive UpEvent
  | send (data : Option Bytes) (fr : FeedResult)
  | finish
  | closed
  | resp (r : RespRes) (more : Bool)
deriving DecidableEq, Repr

/-- Return value of `stream_req`, mirroring `Option<Result<Response, Error>>`:
`silent` = `None` (exit without replying), `result` = `Some`, `pending` = the
modelled schedule ended while the loop was still awaiting. -/
inductive SReqRes
  | pending
  | silent
  | result (r : Except Error RespHead)
deriving DecidableEq, Repr

/-- The `loop { tokio::select! { .. } }` of `Req::stream_req`.  Events that
cannot fire in the current state (`rx` events while the `rx` branch is
disabled by `fin`) are skipped. -/
def streamReqGo (fin : Bool) : List UpEvent → List Msg × SReqRes
  | [] => ([], .pending)
  | .send data fr :: rest =>
    if fin then streamReqGo fin rest
    else
      match data with
      | none => ([], .result (.error { code := .request, reason := "invalid iodata" }))
      | some _ =>
        match fr with
        | .fed =>
          (Msg.next :: (streamReqGo fin rest).1, (streamReqGo fin rest).2)
        | .respFirst r => ([], .result (r.mapError rqErrToError))
        | .feedFail _ none => ([], .pending)
        | .feedFail _ (some r) => ([], .result (r.mapError rqErrToError))
  | .finish :: rest =>
    if fin then streamReqGo fin rest else streamReqGo true rest
  | .closed :: rest =>
    if fin then streamReqGo fin rest else ([], .silent)
  | .resp r more :: _ =>
    if fin then ([], .result (r.mapError rqErrToError))
    else if more then ([], .result (r.mapError rqErrToError))
    else ([], .silent)

/-- `Req::stream_req`: sends the `next` backpressure token once up front
(before the loop), then runs the loop. -/
def streamReq (events : List UpEvent) : List Msg × SReqRes :=
  (Msg.next :: (streamReqGo false events).1, (streamReqGo false events).2)

/-! ### `stream_response_chunk` and `Req::stream_resp` (chunked reads) -/

/-- `struct ReadOpts { length, period }`. -/
structure ReadOpts where
  length : Nat
  period : Option Nat
deriving DecidableEq, Repr

/-- `DEFAULT_READ_LENGTH` in req.rs. -/
def DEFAULT_READ_LENGTH : Nat := 8 * 1024 * 1024

/-- The `read` NIF's opts decoding: `length` defaults to
`DEFAULT_READ_LENGTH`, `period` to absent. -/
def mkReadOpts (length : Option Nat) (period : Option Nat) : ReadOpts :=
  { length := length.getD DEFAULT_READ_LENGTH, period }

/-- `enum IsFin`. -/
inductive IsFin
  | fin
  | noFin
deriving DecidableEq, Repr

/-- One scheduler event for the `select!` inside `stream_response_chunk`:
`chunk d` = `response.chunk()` yields `Ok(Some(d))`;
`eof` = it yields `Ok(None)` (end of body);
`err e` = it yields `Err(e)`;
`timeout` = the `period` sleep fires (possible only when `period` is set). -/
inductive ChunkEvent
  | chunk (data : Bytes)
  | eof
  | err (e : RqErr)
  | timeout
deriving DecidableEq, Repr

/-- `stream_response_chunk` in req.rs: accumulate chunks into `buf` until the
buffer reaches `length` bytes (`NoFin`), end-of-body (`Fin`), a transport
error, or — only when `period` is set — the period timer fires (`NoFin`).
Returns the buffer, the result, and the unconsumed events; `none` when the
schedule ends while the function is still awaiting. -/
def streamResponseChunk (length : Nat) (period : Option Nat) (buf : Bytes) :
    List ChunkEvent → Option (Bytes × Except RqErr IsFin × List ChunkEvent)
  | [] => none
  | .chunk d :: rest =>
    if length ≤ (buf ++ d).length then some (buf ++ d, .ok .noFin, rest)
    else streamResponseChunk length period (buf ++ d) rest
  | .eof :: rest => some (buf, .ok .fin, rest)
  | .err e :: rest => some (buf, .error e, rest)
  | .timeout :: rest =>
    match period with
    | some _ => some (buf, .ok .noFin, rest)
    | none => streamResponseChunk length period buf rest

/-- The `loop { match rx.next().await { .. } }` of `Req::stream_resp`: the
caller issues the reads in `reads` one at a time, then closes the read
channel iff `closed` (an exhausted `reads` with `closed = false` leaves the
engine awaiting).  The buffer is cleared (`buf.clear()`) at the start of each
pull. -/
def streamRespGo (closed : Bool) : List ReadOpts → List ChunkEvent → List Msg × Outcome
  | [], _ => if closed then ([], .silent) else ([], .pending)
  | opts :: reads, events =>
    match streamResponseChunk opts.length opts.period [] events with
    | none => ([], .pending)
    | some (buf, .ok .noFin, rest) =>
      (Msg.chunk buf :: (streamRespGo closed reads rest).1, (streamRespGo closed reads rest).2)
    | some (buf, .ok .fin, _) => ([Msg.fin buf], .terminal)
    | some (_, .error e, _) => ([Msg.error (rqErrToError e)], .terminal)

/-- `Req::stream_resp`: first sends the non-terminal status+headers-only
`reply` (body absent), then serves pulls. -/
def streamResp (h : RespHead) (closed : Bool) (reads : List ReadOpts)
    (events : List ChunkEvent) : List Msg × Outcome :=
  (Msg.reply { status := h.status, headers := h.headers, body := none }
     :: (streamRespGo closed reads events).1,
   (streamRespGo closed reads events).2)

/-! ### `Req::run` -/

/-- All inputs of one modelled execution of `Req::run`: the decode outcomes,
the schedule of the upload race (used when `body = stream`), the result of
awaiting the response future directly (used when the body is not streamed;
`none` = it never resolves), whether the response body is streamed
(`resp_stream_rx.is_some()`), the caller's reads and the body-chunk schedule
(streamed response), and the result of `res.bytes()` (complete response). -/
structure RunInput where
  dec : DecodeInput
  upEvents : List UpEvent
  respAwait : Option RespRes
  respStream : Bool
  reads : List ReadOpts
  readsClosed : Bool
  chunkEvents : List ChunkEvent
  bodyAwait : Option (Except RqErr Bytes)
deriving Repr

/-- The observable result of `Req::run`: the messages sent to the caller in
order, how the reply slot ended, and whether `builder.send()` was reached
(i.e. whether a network operation was started). -/
structure RunResult where
  trace : List Msg
  outcome : Outcome
  sendStarted : Bool
deriving DecidableEq, Repr

/-- The response phase of `Req::run`: streamed response delivery via
`stream_resp`, or `res.bytes()` followed by the terminal `reply`/`error`. -/
def respPhase (i : RunInput) (h : RespHead) : List Msg × Outcome :=
  if i.respStream then streamResp h i.readsClosed i.reads i.chunkEvents
  else
    match i.bodyAwait with
    | none => ([], .pending)
    | some (.ok b) =>
      ([Msg.reply { status := h.status, headers := h.headers, body := some b }], .terminal)
    | some (.error e) => ([Msg.error (rqErrToError e)], .terminal)

/-- `Req::run`: decode (failure → immediate terminal error, no send); then
either the upload race (`body = stream`, where `req_body_channels` is
`Some`) or a direct await of the response future; then the response phase. -/
def run (i : RunInput) : RunResult :=
  match decode i.dec with
  | .error e => { trace := [Msg.error e], outcome := .terminal, sendStarted := false }
  | .ok () =>
    if i.dec.body = .stream then
      match (streamReq i.upEvents).2 with
      | .pending =>
        { trace := (streamReq i.upEvents).1, outcome := .pending, sendStarted := true }
      | .silent =>
        { trace := (streamReq i.upEvents).1, outcome := .silent, sendStarted := true }
      | .result (.error e) =>
        { trace := (streamReq i.upEvents).1 ++ [Msg.error e]
          outcome := .terminal, sendStarted := true }
      | .result (.ok h) =>
        { trace := (streamReq i.upEvents).1 ++ (respPhase i h).1
          outcome := (respPhase i h).2, sendStarted := true }
    else
      match i.respAwait with
      | none => { trace := [], outcome := .pending, sendStarted := true }
      | some (.error e) =>
        { trace := [Msg.error (rqErrToError e)], outcome := .terminal, sendStarted := true }
      | some (.ok h) =>
        { trace := (respPhase i h).1, outcome := (respPhase i h).2, sendStarted := true }

/-! ### `impl Drop for Req` and the `req` NIF's spawn bookkeeping -/

/-- The state `Drop::drop` inspects: whether `caller_ref` is still present
(the reply slot is open) and whether the drop runs on the thread that
created the `Req`. -/
structure DropState where
  callerRefPresent : Bool
  onInitialThread : Bool
deriving DecidableEq, Repr

/-- `impl Drop for Req`: if the reply slot is open, either set the
`dropped_on_initial_thread` flag (same thread: the future was never spawned
and no message can be sent) or send the terminal `Cancelled` error.  Returns
the message sent (if any) and the flag's value. -/
def dropReq (s : DropState) : Option Msg × Bool :=
  if s.callerRefPresent then
    if s.onInitialThread then (none, true)
    else (some (Msg.error { code := .cancelled, reason := "future dropped" }), false)
  else (none, false)

/-- Result of the `req` NIF after spawning. -/
inductive ReqNifResult
  | okHandle
  | raiseBadRuntime
deriving DecidableEq, Repr

/-- The tail of the `req` NIF: if the future was dropped on the initial
thread (runtime shutting down), raise `bad_runtime`; otherwise return the
handle resource. -/
def reqSpawnOutcome (droppedOnInitialThread : Bool) : ReqNifResult :=
  if droppedOnInitialThread then .raiseBadRuntime else .okHandle

/-! ### `ReqHandle` and its NIFs -/

/-- Result of a handle NIF: `ok`, or the `BadArg` failure. -/
inductive NifRes
  | ok
  | badarg
deriving DecidableEq, Repr

/-- `struct ReqHandle`: the two optional sender ends.  `none` = the request
was not configured for that kind of streaming; `some b` = the sender exists
and `b` says whether an `unbounded_send` on it still succeeds (the channel
has not been closed or had its receiver dropped). -/
structure ReqHandle where
  reqBodyTx : Option Bool
  respStreamTx : Option Bool
deriving DecidableEq, Repr

/-- The handle the `req` NIF builds: the body sender exists iff the `body`
opt is the `stream` marker, the read sender iff `response_body` is the
`stream` marker. -/
def mkHandle (bodyStream : Bool) (respBodyStream : Bool) : ReqHandle :=
  { reqBodyTx := if bodyStream then some true else none
    respStreamTx := if respBodyStream then some true else none }

/-- The `send` NIF: `unbounded_send(SendCmd::Send ..)` on the body sender;
`BadArg` when the sender is absent or the send fails. -/
def ReqHandle.send (h : ReqHandle) : NifRes :=
  match h.reqBodyTx with
  | some true => .ok
  | _ => .badarg

/-- The `finish_send` NIF: `unbounded_send(SendCmd::FinishSend)` then
`close_channel()` on success; `BadArg` when the sender is absent or the send
fails. -/
def ReqHandle.finishSend (h : ReqHandle) : NifRes × ReqHandle :=
  match h.reqBodyTx with
  | some true => (.ok, { h with reqBodyTx := some false })
  | _ => (.badarg, h)

/-- The `read` NIF (after opts decoding): `unbounded_send(opts)` on the read
sender; `BadArg` when the sender is absent or the send fails. -/
def ReqHandle.read (h : ReqHandle) (_opts : ReadOpts) : NifRes :=
  match h.respStreamTx with
  | some true => .ok
  | _ => .badarg

/-- The `cancel_stream` NIF: close whichever senders exist, return `ok`
unconditionally. -/
def ReqHandle.cancelStream (h : ReqHandle) : NifRes × ReqHandle :=
  (.ok,
   { reqBodyTx := h.reqBodyTx.map fun _ => false
     respStreamTx := h.respStreamTx.map fun _ => false })

/-! ### Derived notions used by the verification -/

/-- A trace/outcome pair is well formed when: if the reply slot ended
terminally the trace is some non-terminal messages followed by exactly one
terminal message, and otherwise the trace holds no terminal message. -/
def WfTrace (ms : List Msg) (o : Outcome) : Prop :=
  (o = .terminal →
    ∃ pre m, ms = pre ++ [m] ∧ (∀ x ∈ pre, x.isTerminal = false) ∧ m.isTerminal = true) ∧
  (o ≠ .terminal → ∀ x ∈ ms, x.isTerminal = false)

/-- Upload-race events by which the caller's command channel is observed
closed: `rx.next()` returning `None`, either in the select branch or in the
await after the response resolved. -/
def UpEvent.closes : UpEvent → Bool
  | .closed => true
  | .resp _ more => !more
  | _ => false

/-- The caller closed a command/pull channel somewhere in the schedule. -/
def callerClosed (i : RunInput) : Bool :=
  i.upEvents.any UpEvent.closes || i.readsClosed

/-- Number of `next` backpressure messages in a trace. -/
def nextCount (ms : List Msg) : Nat :=
  ms.countP fun m => m = Msg.next

/-- Number of terminal messages in a trace. -/
def terminalCount (ms : List Msg) : Nat :=
  ms.countP fun m => m.isTerminal

/-- Upload-race events in which a `Send` payload is fully accepted by the
bounded body channel (the feed completes with `Ok(())`). -/
def UpEvent.isFedSend : UpEvent → Bool
  | .send (some _) .fed => true
  | _ => false

/-- The full response body carried by a body-chunk schedule: the
concatenation of everything `response.chunk()` yields before end-of-body (or
before a transport error). -/
def takeBody : List ChunkEvent → Bytes
  | [] => []
  | .chunk d :: rest => d ++ takeBody rest
  | .timeout :: rest => takeBody rest
  | .eof :: _ => []
  | .err _ :: _ => []

/-- The concatenation of the `chunk` payloads and the `fin` payload of a
trace. -/
def emittedBody : List Msg → Bytes
  | [] => []
  | .chunk b :: rest => b ++ emittedBody rest
  | .fin b :: rest => b ++ emittedBody rest
  | _ :: rest => emittedBody rest

/-! ### Concrete inputs used as witnesses and counterexamples -/

/-- A 10-byte chunk. -/
def tenA : Bytes := List.replicate 10 65

/-- A response head for the echo scenario. -/
def echoHead : RespHead := { status := 200, headers := [] }

/-- The §8 upload scenario: `body = stream`, the caller sends two 10-byte
chunks and `finish_send`, both feeds are accepted, the server echoes the
20-byte body as a complete response. -/
def c2Input : RunInput :=
  { dec := { url := .ok, headers := [], body := .stream }
    upEvents := [.send (some tenA) .fed, .send (some tenA) .fed, .finish, .resp (.ok echoHead) true]
    respAwait := none
    respStream := false
    reads := []
    readsClosed := false
    chunkEvents := []
    bodyAwait := some (.ok (tenA ++ tenA)) }

/-- A request whose URL fails to parse *and* whose first header has a
malformed name. -/
def c6Input : RunInput :=
  { dec := { url := .parseError "relative URL without a base"
             headers := [.badName "invalid header name"]
             body := .noBody }
    upEvents := []
    respAwait := none
    respStream := false
    reads := []
    readsClosed := false
    chunkEvents := []
    bodyAwait := none }

/-- A request whose URL parses and whose second header has a malformed
value. -/
def c6bInput : RunInput :=
  { dec := { url := .ok
             headers := [.ok, .badValue "failed to parse header value"]
             body := .noBody }
    upEvents := []
    respAwait := none
    respStream := false
    reads := []
    readsClosed := false
    chunkEvents := []
    bodyAwait := none }

/-- Reads for a small streamed-response session. -/
def c3Reads : List ReadOpts := [{ length := 4, period := none }, { length := 4, period := none }]

/-- Body-chunk schedule for a small streamed-response session: two chunks
then end-of-body. -/
def c3Events : List ChunkEvent := [.chunk [1, 2, 3], .chunk [4, 5], .eof]

/-- A streamed upload in which the response resolves while the first feed is
still in flight. -/
def c5Input : RunInput :=
  { dec := { url := .ok, headers := [], body := .stream }
    upEvents := [.send (some tenA) (.respFirst (.ok echoHead))]
    respAwait := none
    respStream := false
    reads := []
    readsClosed := false
    chunkEvents := []
    bodyAwait := some (.ok []) }

/-- A streamed upload whose command channel is closed before any command is
received. -/
def c8Input : RunInput :=
  { dec := { url := .ok, headers := [], body := .stream }
    upEvents := [.closed]
    respAwait := none
    respStream := false
    reads := []
    readsClosed := false
    chunkEvents := []
    bodyAwait := none }

/-! ### Lemmas about `stream_req` -/

/-- Every message the `stream_req` loop itself sends is the `next`
backpressure token. -/
theorem streamReqGo_msgs_next (evs : List UpEvent) :
    ∀ (fin : Bool), ∀ m ∈ (streamReqGo fin evs).1, m = Msg.next := by
  induction evs with
  | nil => intro fin m hm; simp [streamReqGo] at hm
  | cons e rest ih =>
    intro fin m hm
    cases e with
    | send data fr =>
      cases fin with
      | false =>
        cases data with
        | none => simp [streamReqGo] at hm
        | some d =>
          cases fr with
          | fed =>
            simp only [streamReqGo, if_neg Bool.false_ne_true, List.mem_cons] at hm
            rcases hm with h | h
            · exact h
            · exact ih false m h
          | respFirst r => simp [streamReqGo] at hm
          | feedFail ferr r =>
            cases r with
            | none => simp [streamReqGo] at hm
            | some r' => simp [streamReqGo] at hm
      | true =>
        simp only [streamReqGo, if_pos rfl] at hm
        exact ih true m hm
    | finish =>
      cases fin with
      | false =>
        simp only [streamReqGo, if_neg Bool.false_ne_true] at hm
        exact ih true m hm
      | true =>
        simp only [streamReqGo, if_pos rfl] at hm
        exact ih true m hm
    | closed =>
      cases fin with
      | false => simp [streamReqGo] at hm
      | true =>
        simp only [streamReqGo, if_pos rfl] at hm
        exact ih true m hm
    | resp r more =>
      cases fin with
      | false =>
        cases more with
        | false => simp [streamReqGo] at hm
        | true => simp [streamReqGo] at hm
      | true => simp [streamReqGo] at hm

/-- The `stream_req` loop exits with `None` (silent abandonment) only after
observing the caller's command channel closed. -/
theorem streamReqGo_silent_closes (evs : List UpEvent) :
    ∀ (fin : Bool), (streamReqGo fin evs).2 = .silent →
      evs.any UpEvent.closes = true := by
  induction evs with
  | nil => intro fin h; simp [streamReqGo] at h
  | cons e rest ih =>
    intro fin h
    cases e with
    | send data fr =>
      cases fin with
      | false =>
        cases data with
        | none => simp [streamReqGo] at h
        | some d =>
          cases fr with
          | fed =>
            simp only [streamReqGo, if_neg Bool.false_ne_true] at h
            simp [List.any_cons, ih false h]
          | respFirst r => simp [streamReqGo] at h
          | feedFail ferr r =>
            cases r with
            | none => simp [streamReqGo] at h
            | some r' => simp [streamReqGo] at h
      | true =>
        simp only [streamReqGo, if_pos rfl] at h
        simp [List.any_cons, ih true h]
    | finish =>
      cases fin with
      | false =>
        simp only [streamReqGo, if_neg Bool.false_ne_true] at h
        simp [List.any_cons, ih true h]
      | true =>
        simp only [streamReqGo, if_pos rfl] at h
        simp [List.any_cons, ih true h]
    | closed => simp [List.any_cons, UpEvent.closes]
    | resp r more =>
      cases fin with
      | false =>
        cases more with
        | false => simp [List.any_cons, UpEvent.closes]
        | true => simp [streamReqGo] at h
      | true => simp [streamReqGo] at h

/-- Each `next` message past the initial one is gated by a fully accepted
`Send` feed: the loop emits at most one `next` per accepted chunk. -/
theorem streamReqGo_nextCount (evs : List UpEvent) :
    ∀ (fin : Bool),
      nextCount (streamReqGo fin evs).1 ≤ evs.countP UpEvent.isFedSend := by
  induction evs with
  | nil => intro fin; simp [streamReqGo, nextCount]
  | cons e rest ih =>
    intro fin
    have hmono : rest.countP UpEvent.isFedSend ≤ (e :: rest).countP UpEvent.isFedSend := by
      simp only [List.countP_cons]
      omega
    cases e with
    | send data fr =>
      cases fin with
      | false =>
        cases data with
        | none => simp [streamReqGo, nextCount]
        | some d =>
          cases fr with
          | fed =>
            simp only [streamReqGo, if_neg Bool.false_ne_true,
              nextCount, List.countP_cons, UpEvent.isFedSend]
            have := ih false
            simp only [nextCount] at this
            simpa using Nat.add_le_add this (le_refl 1)
          | respFirst r => simp [streamReqGo, nextCount]
          | feedFail ferr r =>
            cases r with
            | none => simp [streamReqGo, nextCount]
            | some r' => simp [streamReqGo, nextCount]
      | true =>
        simp only [streamReqGo, if_pos rfl]
        exact le_trans (ih true) hmono
    | finish =>
      cases fin with
      | false =>
        simp only [streamReqGo, if_neg Bool.false_ne_true]
        exact le_trans (ih true) hmono
      | true =>
        simp only [streamReqGo, if_pos rfl]
        exact le_trans (ih true) hmono
    | closed =>
      cases fin with
      | false => simp [streamReqGo, nextCount]
      | true =>
        simp only [streamReqGo, if_pos rfl]
        exact le_trans (ih true) hmono
    | resp r more =>
      cases fin with
      | false =>
        cases more with
        | false => simp [streamReqGo, nextCount]
        | true => simp [streamReqGo, nextCount]
      | true => simp [streamReqGo, nextCount]

/-! ### Lemmas about `stream_response_chunk` and `stream_resp` -/

/-- A non-final flush accounts for the consumed events exactly: the flushed
buffer plus the body still to come equals the body that was to come before
the pull; and a non-final flush happens only once the buffer reached the
requested length, or by the period valve (which requires `period` set). -/
theorem streamResponseChunk_noFin (evs : List ChunkEvent) :
    ∀ (length : Nat) (period : Option Nat) (buf0 buf : Bytes) (rest : List ChunkEvent),
      streamResponseChunk length period buf0 evs = some (buf, .ok .noFin, rest) →
      buf0 ++ takeBody evs = buf ++ takeBody rest ∧
        (length ≤ buf.length ∨ period ≠ none) := by
  induction evs with
  | nil => intro length period buf0 buf rest h; simp [streamResponseChunk] at h
  | cons e evs ih =>
    intro length period buf0 buf rest h
    cases e with
    | chunk d =>
      rw [streamResponseChunk] at h
      split at h
      · rename_i hlen
        obtain ⟨h1, h3⟩ : buf0 ++ d = buf ∧ evs = rest := by simpa using h
        subst h1; subst h3
        exact ⟨by simp [takeBody], Or.inl hlen⟩
      · obtain ⟨h1, h2⟩ := ih length period (buf0 ++ d) buf rest h
        exact ⟨by simpa [takeBody] using h1, h2⟩
    | eof => simp [streamResponseChunk] at h
    | err e => simp [streamResponseChunk] at h
    | timeout =>
      cases period with
      | none =>
        rw [streamResponseChunk] at h
        obtain ⟨h1, h2⟩ := ih length none buf0 buf rest h
        exact ⟨by simpa [takeBody] using h1, h2⟩
      | some p =>
        obtain ⟨h1, h3⟩ : buf0 = buf ∧ evs = rest := by
          simpa [streamResponseChunk] using h
        subst h1; subst h3
        exact ⟨by simp [takeBody], Or.inr (by simp)⟩

/-- A final flush happens exactly at end-of-body: the consumed events are
everything up to the first `eof`, and the flushed buffer is whatever was
buffered — the remaining body bytes — even if fewer than `length`. -/
theorem streamResponseChunk_fin (evs : List ChunkEvent) :
    ∀ (length : Nat) (period : Option Nat) (buf0 buf : Bytes) (rest : List ChunkEvent),
      streamResponseChunk length period buf0 evs = some (buf, .ok .fin, rest) →
      (∃ pre, evs = pre ++ ChunkEvent.eof :: rest) ∧ buf = buf0 ++ takeBody evs := by
  induction evs with
  | nil => intro length period buf0 buf rest h; simp [streamResponseChunk] at h
  | cons e evs ih =>
    intro length period buf0 buf rest h
    cases e with
    | chunk d =>
      rw [streamResponseChunk] at h
      split at h
      · simp at h
      · obtain ⟨⟨pre, hpre⟩, hbuf⟩ := ih length period (buf0 ++ d) buf rest h
        refine ⟨⟨ChunkEvent.chunk d :: pre, by simp [hpre]⟩, ?_⟩
        simp [takeBody, hbuf]
    | eof =>
      obtain ⟨h1, h3⟩ : buf0 = buf ∧ evs = rest := by
        simpa [streamResponseChunk] using h
      subst h1; subst h3
      exact ⟨⟨[], rfl⟩, by simp [takeBody]⟩
    | err e => simp [streamResponseChunk] at h
    | timeout =>
      cases period with
      | none =>
        rw [streamResponseChunk] at h
        obtain ⟨⟨pre, hpre⟩, hbuf⟩ := ih length none buf0 buf rest h
        exact ⟨⟨ChunkEvent.timeout :: pre, by simp [hpre]⟩, by simp [takeBody, hbuf]⟩
      | some p => simp [streamResponseChunk] at h

/-! ### Well-formed traces -/

theorem wfTrace_cons {m : Msg} {ms : List Msg} {o : Outcome}
    (hm : m.isTerminal = false) (h : WfTrace ms o) : WfTrace (m :: ms) o := by
  constructor
  · intro ho
    obtain ⟨pre, mlast, hpre, hnt, hlast⟩ := h.1 ho
    exact ⟨m :: pre, mlast, by simp [hpre], by
      intro x hx
      rcases List.mem_cons.mp hx with rfl | hx
      · exact hm
      · exact hnt x hx, hlast⟩
  · intro ho x hx
    rcases List.mem_cons.mp hx with rfl | hx
    · exact hm
    · exact h.2 ho x hx

theorem wfTrace_append {ms1 ms2 : List Msg} {o : Outcome}
    (h1 : ∀ x ∈ ms1, x.isTerminal = false) (h2 : WfTrace ms2 o) :
    WfTrace (ms1 ++ ms2) o := by
  induction ms1 with
  | nil => simpa using h2
  | cons m ms ih =>
    have := ih fun x hx => h1 x (List.mem_cons_of_mem m hx)
    simpa using wfTrace_cons (h1 m (List.mem_cons_self m ms)) this

/-- A well-formed trace holds at most one terminal message. -/
theorem wfTrace_count_le_one {ms : List Msg} {o : Outcome} (h : WfTrace ms o) :
    terminalCount ms ≤ 1 := by
  by_cases ho : o = .terminal
  · obtain ⟨pre, m, hpre, hnt, hlast⟩ := h.1 ho
    have hzero : pre.countP (fun m => m.isTerminal) = 0 :=
      List.countP_eq_zero.mpr (by intro a ha; simp [hnt a ha])
    simp [terminalCount, hpre, List.countP_append, hzero, List.countP_cons, hlast]
  · have hall := h.2 ho
    have hzero : ms.countP (fun m => m.isTerminal) = 0 :=
      List.countP_eq_zero.mpr (by intro a ha; simp [hall a ha])
    simp [terminalCount, hzero]

/-- A terminally ended well-formed trace holds exactly one terminal
message. -/
theorem wfTrace_count_eq_one {ms : List Msg} (h : WfTrace ms .terminal) :
    terminalCount ms = 1 := by
  obtain ⟨pre, m, hpre, hnt, hlast⟩ := h.1 rfl
  have hzero : pre.countP (fun m => m.isTerminal) = 0 :=
    List.countP_eq_zero.mpr (by intro a ha; simp [hnt a ha])
  simp [terminalCount, hpre, List.countP_append, hzero, List.countP_cons, hlast]

/-- In a well-formed trace, a terminal message is never followed by any
further message. -/
theorem wfTrace_terminal_last {ms : List Msg} {o : Outcome} (h : WfTrace ms o) :
    ∀ l1 m l2, ms = l1 ++ m :: l2 → m.isTerminal = true → l2 = [] := by
  intro l1 m l2 hms hterm
  by_cases ho : o = .terminal
  · obtain ⟨pre, mlast, hpre, hnt, _⟩ := h.1 ho
    rcases List.eq_nil_or_concat l2 with h2 | ⟨L, b, rfl⟩
    · exact h2
    · exfalso
      have heq : (l1 ++ m :: L) ++ [b] = pre ++ [mlast] := by
        rw [← hpre, hms]; simp [List.concat_eq_append]
      have h3 := List.append_inj' heq (by simp)
      have hm_in : m ∈ pre := by rw [← h3.1]; simp
      have := hnt m hm_in
      rw [hterm] at this
      simp at this
  · exfalso
    have : m ∈ ms := by rw [hms]; simp
    have h4 := h.2 ho m this
    rw [hterm] at h4
    simp at h4

/-- The pull loop of `stream_resp` produces a well-formed trace: any number
of non-terminal `chunk` messages, closed by exactly one terminal `fin` or
`error` message iff the loop ends terminally. -/
theorem streamRespGo_wf (reads : List ReadOpts) :
    ∀ (closed : Bool) (evs : List ChunkEvent),
      WfTrace (streamRespGo closed reads evs).1 (streamRespGo closed reads evs).2 := by
  induction reads with
  | nil =>
    intro closed evs
    cases closed <;>
      exact ⟨by intro h; simp [streamRespGo] at h, by intro _ x hx; simp [streamRespGo] at hx⟩
  | cons opts reads ih =>
    intro closed evs
    rcases hstep : streamResponseChunk opts.length opts.period [] evs with _ | ⟨buf, res, rest⟩
    · rw [show streamRespGo closed (opts :: reads) evs =
          ([], .pending) by simp [streamRespGo, hstep]]
      exact ⟨by intro h; simp at h, by intro _ x hx; simp at hx⟩
    · match res with
      | .ok .noFin =>
        rw [show streamRespGo closed (opts :: reads) evs =
            (Msg.chunk buf :: (streamRespGo closed reads rest).1,
             (streamRespGo closed reads rest).2) by simp [streamRespGo, hstep]]
        exact wfTrace_cons (by simp [Msg.isTerminal]) (ih closed rest)
      | .ok .fin =>
        rw [show streamRespGo closed (opts :: reads) evs =
            ([Msg.fin buf], .terminal) by simp [streamRespGo, hstep]]
        exact ⟨fun _ => ⟨[], Msg.fin buf, by simp, by simp, by simp [Msg.isTerminal]⟩,
          by intro h; simp at h⟩
      | .error e =>
        rw [show streamRespGo closed (opts :: reads) evs =
            ([Msg.error (rqErrToError e)], .terminal) by simp [streamRespGo, hstep]]
        exact ⟨fun _ => ⟨[], Msg.error (rqErrToError e), by simp, by simp,
          by simp [Msg.isTerminal]⟩, by intro h; simp at h⟩

/-- The pull loop exits silently only when the caller closed the read
channel. -/
theorem streamRespGo_silent (reads : List ReadOpts) :
    ∀ (closed : Bool) (evs : List ChunkEvent),
      (streamRespGo closed reads evs).2 = .silent → closed = true := by
  induction reads with
  | nil =>
    intro closed evs h
    cases closed with
    | false => simp [streamRespGo] at h
    | true => rfl
  | cons opts reads ih =>
    intro closed evs h
    rcases hstep : streamResponseChunk opts.length opts.period [] evs with _ | ⟨buf, res, rest⟩
    · rw [streamRespGo, hstep] at h; simp at h
    · match res with
      | .ok .noFin =>
        rw [streamRespGo, hstep] at h
        exact ih closed rest h
      | .ok .fin => rw [streamRespGo, hstep] at h; simp at h
      | .error e => rw [streamRespGo, hstep] at h; simp at h

/-- The engine answers each pull with exactly one message: the loop never
emits more messages than reads issued. -/
theorem streamRespGo_one_per_read (reads : List ReadOpts) :
    ∀ (closed : Bool) (evs : List ChunkEvent),
      (streamRespGo closed reads evs).1.length ≤ reads.length := by
  induction reads with
  | nil => intro closed evs; cases closed <;> simp [streamRespGo]
  | cons opts reads ih =>
    intro closed evs
    rcases hstep : streamResponseChunk opts.length opts.period [] evs with _ | ⟨buf, res, rest⟩
    · simp [streamRespGo, hstep]
    · match res with
      | .ok .noFin =>
        rw [streamRespGo, hstep]
        simpa using Nat.succ_le_succ (ih closed rest)
      | .ok .fin => rw [streamRespGo, hstep]; simp
      | .error e => rw [streamRespGo, hstep]; simp

/-- Byte-for-byte accounting over a whole streamed-read session: if the loop
ends terminally and the trace holds no error message (so it ended in `fin`),
the concatenation of the emitted `chunk` payloads and the `fin` payload is
exactly the response body carried by the schedule. -/
theorem streamRespGo_concat (reads : List ReadOpts) :
    ∀ (closed : Bool) (evs : List ChunkEvent),
      (streamRespGo closed reads evs).2 = .terminal →
      (∀ e, Msg.error e ∉ (streamRespGo closed reads evs).1) →
      emittedBody (streamRespGo closed reads evs).1 = takeBody evs := by
  induction reads with
  | nil =>
    intro closed evs h _
    cases closed <;> simp [streamRespGo] at h
  | cons opts reads ih =>
    intro closed evs h hnoerr
    rcases hstep : streamResponseChunk opts.length opts.period [] evs with _ | ⟨buf, res, rest⟩
    · rw [streamRespGo, hstep] at h; simp at h
    · match res with
      | .ok .noFin =>
        rw [streamRespGo, hstep] at h hnoerr ⊢
        simp only [emittedBody]
        have hnoerr' : ∀ e, Msg.error e ∉ (streamRespGo closed reads rest).1 := by
          intro e he
          exact hnoerr e (List.mem_cons_of_mem _ he)
        rw [ih closed rest h hnoerr']
        have := (streamResponseChunk_noFin evs opts.length opts.period [] buf rest hstep).1
        simpa using this.symm
      | .ok .fin =>
        rw [streamRespGo, hstep] at h hnoerr ⊢
        have := (streamResponseChunk_fin evs opts.length opts.period [] buf rest hstep).2
        simp only [emittedBody]
        simpa using this
      | .error e =>
        rw [streamRespGo, hstep] at hnoerr
        exact absurd (List.mem_cons_self _ _) (hnoerr (rqErrToError e))

theorem wfTrace_of_nonterm {ms : List Msg} {o : Outcome} (ho : o ≠ .terminal)
    (hall : ∀ x ∈ ms, x.isTerminal = false) : WfTrace ms o :=
  ⟨fun h => absurd h ho, fun _ => hall⟩

theorem wfTrace_single_terminal {m : Msg} (hm : m.isTerminal = true) :
    WfTrace [m] .terminal :=
  ⟨fun _ => ⟨[], m, by simp, by simp, hm⟩, fun h => absurd rfl h⟩

/-- Everything `stream_req` sends (the initial backpressure token included)
is non-terminal. -/
theorem streamReq_nonterminal (evs : List UpEvent) :
    ∀ x ∈ (streamReq evs).1, x.isTerminal = false := by
  intro x hx
  simp only [streamReq, List.mem_cons] at hx
  rcases hx with rfl | hx
  · simp [Msg.isTerminal]
  · rw [streamReqGo_msgs_next evs false x hx]
    simp [Msg.isTerminal]

/-- The response phase produces a well-formed trace. -/
theorem respPhase_wf (i : RunInput) (h : RespHead) :
    WfTrace (respPhase i h).1 (respPhase i h).2 := by
  cases hb : i.respStream with
  | true =>
    simp only [respPhase, hb, if_true, streamResp]
    exact wfTrace_cons (by simp [Msg.isTerminal])
      (streamRespGo_wf i.reads i.readsClosed i.chunkEvents)
  | false =>
    simp only [respPhase, hb, Bool.false_eq_true, if_false]
    rcases i.bodyAwait with _ | b
    · exact wfTrace_of_nonterm (by simp) (by intro x hx; simp at hx)
    · rcases b with e | b
      · exact wfTrace_single_terminal (by simp [Msg.isTerminal])
      · exact wfTrace_single_terminal (by simp [Msg.isTerminal])

/-- The response phase ends silently only when the caller closed the read
channel. -/
theorem respPhase_silent (i : RunInput) (h : RespHead) :
    (respPhase i h).2 = .silent → i.readsClosed = true := by
  intro hs
  cases hb : i.respStream with
  | true =>
    simp only [respPhase, hb, if_true, streamResp] at hs
    exact streamRespGo_silent i.reads i.readsClosed i.chunkEvents hs
  | false =>
    simp only [respPhase, hb, Bool.false_eq_true, if_false] at hs
    rcases hba : i.bodyAwait with _ | b
    · rw [hba] at hs; simp at hs
    · rcases b with e | b <;> rw [hba] at hs <;> simp at hs

/-- `Req::run` produces a well-formed trace. -/
theorem run_wf (i : RunInput) : WfTrace (run i).trace (run i).outcome := by
  rcases hdec : decode i.dec with e | u
  · simp only [run, hdec]
    exact wfTrace_single_terminal (by simp [Msg.isTerminal])
  · cases u
    by_cases hb : i.dec.body = .stream
    · simp only [run, hdec, if_pos hb]
      rcases hr : (streamReq i.upEvents).2 with _ | _ | r
      · simp only [hr]
        exact wfTrace_of_nonterm (by simp) (streamReq_nonterminal i.upEvents)
      · simp only [hr]
        exact wfTrace_of_nonterm (by simp) (streamReq_nonterminal i.upEvents)
      · rcases r with e | hd
        · simp only [hr]
          exact wfTrace_append (streamReq_nonterminal i.upEvents)
            (wfTrace_single_terminal (by simp [Msg.isTerminal]))
        · simp only [hr]
          exact wfTrace_append (streamReq_nonterminal i.upEvents) (respPhase_wf i hd)
    · simp only [run, hdec, if_neg hb]
      rcases i.respAwait with _ | r
      · exact wfTrace_of_nonterm (by simp) (by intro x hx; simp at hx)
      · rcases r with e | hd
        · exact wfTrace_single_terminal (by simp [Msg.isTerminal])
        · exact respPhase_wf i hd

/-- `Req::run` ends silently only when the caller closed a command/pull
channel. -/
theorem run_silent (i : RunInput) :
    (run i).outcome = .silent → callerClosed i = true := by
  intro hs
  rcases hdec : decode i.dec with e | u
  · rw [run, hdec] at hs; simp at hs
  · cases u
    by_cases hb : i.dec.body = .stream
    · rw [run, hdec] at hs
      simp only [if_pos hb] at hs
      rcases hr : (streamReq i.upEvents).2 with _ | _ | r
      · rw [hr] at hs; simp at hs
      · have := streamReqGo_silent_closes i.upEvents false (by simpa [streamReq] using hr)
        simp [callerClosed, this]
      · rcases r with e | hd
        · rw [hr] at hs; simp at hs
        · rw [hr] at hs
          simp only at hs
          have := respPhase_silent i hd hs
          simp [callerClosed, this]
    · rw [run, hdec] at hs
      simp only [if_neg hb] at hs
      rcases hra : i.respAwait with _ | r
      · rw [hra] at hs; simp at hs
      · rcases r with e | hd
        · rw [hra] at hs; simp at hs
        · rw [hra] at hs
          simp only at hs
          have := respPhase_silent i hd hs
          simp [callerClosed, this]

/-! ### Lemmas about `ReqData::decode` -/

theorem decode_url_invalidUtf8 {d : DecodeInput} {r : String}
    (h : d.url = .invalidUtf8 r) : decode d = .error { code := .url, reason := r } := by
  simp only [decode, h]
  rfl

theorem decode_url_parseError {d : DecodeInput} {r : String}
    (h : d.url = .parseError r) : decode d = .error { code := .url, reason := r } := by
  simp only [decode, h]
  rfl

theorem decodeHeaders_bad :
    ∀ (hs : List HeaderParse), (∃ h ∈ hs, h ≠ .ok) →
      ∃ r, decodeHeaders hs = .error { code := .request, reason := r } := by
  intro hs
  induction hs with
  | nil => intro h; simp at h
  | cons x hs ih =>
    intro ⟨y, hy, hyne⟩
    cases x with
    | badName r => exact ⟨r, rfl⟩
    | badValue r => exact ⟨r, rfl⟩
    | ok =>
      rcases List.mem_cons.mp hy with rfl | hy
      · exact absurd rfl hyne
      · exact ih ⟨y, hy, hyne⟩

theorem decode_headers_error {d : DecodeInput} {e : Error}
    (hu : d.url = .ok) (hh : decodeHeaders d.headers = .error e) :
    decode d = .error e := by
  simp only [decode, hu, hh]
  rfl

/-! ### Claims -/

/-- C1.  For every request (every decode outcome and every schedule): the
trace holds at most one terminal message; a terminal message is never
followed by any further message; a terminally consumed reply slot
corresponds to exactly one terminal message; the reply slot is consumed
silently only when the caller closed a command/pull channel; and every
completed run in which the caller never closed a channel delivers exactly
one terminal message. -/
theorem c1_reply_discipline (i : RunInput) :
    terminalCount (run i).trace ≤ 1 ∧
    (∀ l1 m l2, (run i).trace = l1 ++ m :: l2 → m.isTerminal = true → l2 = []) ∧
    ((run i).outcome = .terminal → terminalCount (run i).trace = 1) ∧
    ((run i).outcome = .silent → callerClosed i = true) ∧
    ((run i).outcome ≠ .pending → callerClosed i = false →
       terminalCount (run i).trace = 1) := by
  have hw := run_wf i
  refine ⟨wfTrace_count_le_one hw, wfTrace_terminal_last hw, ?_, run_silent i, ?_⟩
  · intro h
    exact wfTrace_count_eq_one (h ▸ hw)
  · intro hnp hnc
    rcases ho : (run i).outcome with _ | _ | _
    · exact wfTrace_count_eq_one (ho ▸ hw)
    · rw [run_silent i ho] at hnc; exact absurd hnc (by simp)
    · exact absurd ho hnp

theorem c1_reply_discipline_witness :
    terminalCount (run c2Input).trace = 1 :=
  (c1_reply_discipline c2Input).2.2.2.2 (by decide) (by decide)

/-- C2, counterexample.  In the very scenario the claim describes (two
10-byte chunks, `finish_send`, the server echoing the 20-byte body) the
caller receives three `next` messages, not two: `stream_req` sends an
initial `next` before the first command is read. -/
theorem c2_counterexample :
    (run c2Input).trace =
      [Msg.next, Msg.next, Msg.next,
       Msg.reply { status := 200, headers := [], body := some (tenA ++ tenA) }] ∧
    nextCount (run c2Input).trace ≠ 2 := by
  constructor <;> decide

/-- C2, amended.  A `next` message beyond the initial ready-for-first-chunk
token is emitted only per fully accepted `send` payload (at most one `next`
per accepted chunk, plus the single initial token), and in the echo scenario
the caller receives exactly three `next` messages — the initial token and
one per accepted chunk — followed by one `reply` carrying the 20-byte echoed
body. -/
theorem c2_amended_backpressure :
    (∀ (evs : List UpEvent) (fin : Bool),
       nextCount (streamReqGo fin evs).1 ≤ evs.countP UpEvent.isFedSend) ∧
    (∀ evs : List UpEvent,
       nextCount (streamReq evs).1 ≤ 1 + evs.countP UpEvent.isFedSend) ∧
    (run c2Input).trace =
      [Msg.next, Msg.next, Msg.next,
       Msg.reply { status := 200, headers := [], body := some (tenA ++ tenA) }] := by
  refine ⟨fun evs fin => streamReqGo_nextCount evs fin, fun evs => ?_, by decide⟩
  have h := streamReqGo_nextCount evs false
  have h2 : nextCount (streamReq evs).1 = nextCount (streamReqGo false evs).1 + 1 := by
    simp [streamReq, nextCount, List.countP_cons]
  rw [h2]
  omega

/-- C3.  For every streamed-response session that ends in a `fin` message —
over every choice of read lengths, periods, timeout firings and body chunk
boundaries — the concatenation of the `chunk` payloads followed by the `fin`
payload equals the full response body byte for byte. -/
theorem c3_chunk_concat (hd : RespHead) (closed : Bool) (reads : List ReadOpts)
    (evs : List ChunkEvent) (ms : List Msg)
    (hrun : streamResp hd closed reads evs = (ms, .terminal))
    (hfin : ∃ b, ms.getLast? = some (Msg.fin b)) :
    emittedBody ms = takeBody evs := by
  have h1 : Msg.reply { status := hd.status, headers := hd.headers, body := none }
      :: (streamRespGo closed reads evs).1 = ms := congrArg Prod.fst hrun
  have h2 : (streamRespGo closed reads evs).2 = .terminal := congrArg Prod.snd hrun
  obtain ⟨pre, mlast, hpre, hnt, hterm⟩ := (streamRespGo_wf reads closed evs).1 h2
  obtain ⟨b, hb⟩ := hfin
  have hlast : mlast = Msg.fin b := by
    rw [← h1, hpre] at hb
    rw [show Msg.reply { status := hd.status, headers := hd.headers, body := none }
        :: (pre ++ [mlast]) =
        (Msg.reply { status := hd.status, headers := hd.headers, body := none } :: pre)
        ++ mlast :: [] by simp] at hb
    rw [List.getLast?_append_cons] at hb
    simpa using hb
  have hnoerr : ∀ e, Msg.error e ∉ (streamRespGo closed reads evs).1 := by
    intro e he
    rw [hpre] at he
    rcases List.mem_append.mp he with he | he
    · have := hnt _ he
      simp [Msg.isTerminal] at this
    · rw [hlast] at he
      simp at he
  have hcc := streamRespGo_concat reads closed evs h2 hnoerr
  rw [← h1]
  simpa [emittedBody] using hcc

theorem c3_chunk_concat_witness :
    emittedBody (streamResp echoHead false c3Reads c3Events).1 = takeBody c3Events :=
  c3_chunk_concat echoHead false c3Reads c3Events
    (streamResp echoHead false c3Reads c3Events).1 (by decide) ⟨[], by decide⟩

/-- C4.  Each pull starts from a cleared buffer and is answered by exactly
one message (never more messages than pulls): a non-final flush happens only
once the buffer reached the requested `length` or by the `period` valve
(which requires `period` to be set, and may flush a partial or empty
buffer), and the final flush happens exactly at end-of-body, carrying
whatever is buffered — the remaining body — even if shorter than
`length`. -/
theorem c4_read_protocol :
    (∀ (opts : ReadOpts) (evs : List ChunkEvent) (buf : Bytes)
       (res : Except RqErr IsFin) (rest : List ChunkEvent),
       streamResponseChunk opts.length opts.period [] evs = some (buf, res, rest) →
       (res = .ok .noFin → opts.length ≤ buf.length ∨ opts.period ≠ none) ∧
       (res = .ok .fin →
          (∃ pre, evs = pre ++ ChunkEvent.eof :: rest) ∧ buf = takeBody evs)) ∧
    (∀ (closed : Bool) (reads : List ReadOpts) (evs : List ChunkEvent),
       (streamRespGo closed reads evs).1.length ≤ reads.length) := by
  constructor
  · intro opts evs buf res rest hstep
    constructor
    · intro hres
      rw [hres] at hstep
      exact (streamResponseChunk_noFin evs opts.length opts.period [] buf rest hstep).2
    · intro hres
      rw [hres] at hstep
      obtain ⟨hpre, hbuf⟩ := streamResponseChunk_fin evs opts.length opts.period [] buf rest hstep
      exact ⟨hpre, by simpa using hbuf⟩
  · intro closed reads evs
    exact streamRespGo_one_per_read reads closed evs

theorem c4_read_protocol_witness :
    (4 ≤ ([1, 2, 3, 4, 5] : Bytes).length ∨ (none : Option Nat) ≠ none) :=
  ((c4_read_protocol.1 { length := 4, period := none } c3Events [1, 2, 3, 4, 5]
    (.ok .noFin) [.eof] (by decide)).1 rfl)

/-- C5.  If the response resolves while a feed is in flight, `stream_req`
abandons the feed and returns that response at once — no `next` message is
emitted for the abandoned chunk, any error of the abandoned feed is
discarded (the result does not depend on it), and `run` proceeds directly to
the response phase with that response. -/
theorem c5_resp_wins (d : Bytes) (ferr : String) (r : RespRes) (rest : List UpEvent) :
    streamReqGo false (.send (some d) (.respFirst r) :: rest) =
      ([], .result (r.mapError rqErrToError)) ∧
    streamReqGo false (.send (some d) (.feedFail ferr (some r)) :: rest) =
      ([], .result (r.mapError rqErrToError)) ∧
    (∀ (i : RunInput) (hd : RespHead), decode i.dec = .ok () → i.dec.body = .stream →
       i.upEvents = [.send (some d) (.respFirst (.ok hd))] →
       run i = { trace := Msg.next :: (respPhase i hd).1
                 outcome := (respPhase i hd).2
                 sendStarted := true }) := by
  refine ⟨by simp [streamReqGo], by simp [streamReqGo], ?_⟩
  intro i hd hdec hb hup
  simp [run, hdec, hb, hup, streamReq, streamReqGo, Except.mapError]

theorem c5_resp_wins_witness :
    run c5Input = { trace := Msg.next :: (respPhase c5Input echoHead).1
                    outcome := (respPhase c5Input echoHead).2
                    sendStarted := true } :=
  (c5_resp_wins tenA "channel closed" (.ok echoHead) []).2.2 c5Input echoHead
    (by decide) (by decide) (by decide)

/-- C6, counterexample.  A request whose URL fails to parse *and* whose
header is malformed gets a `Url`-coded error, not the `Request`-coded error
the claim promises for every malformed header: the URL is checked first. -/
theorem c6_counterexample :
    run c6Input =
      { trace := [Msg.error { code := .url, reason := "relative URL without a base" }]
        outcome := .terminal
        sendStarted := false } ∧
    ErrorCode.url ≠ ErrorCode.request := by
  constructor <;> decide

/-- C6, amended.  A request whose URL is not valid UTF-8 or fails to parse
gets an immediate terminal `Url` error before any network operation; a
request whose URL parses but which carries a malformed header name or value
gets an immediate terminal `Request` error before any network operation. -/
theorem c6_amended_build_errors (i : RunInput) :
    ((∃ r, i.dec.url = .invalidUtf8 r) ∨ (∃ r, i.dec.url = .parseError r) →
       ∃ r, run i = { trace := [Msg.error { code := .url, reason := r }]
                      outcome := .terminal
                      sendStarted := false }) ∧
    (i.dec.url = .ok → (∃ h ∈ i.dec.headers, h ≠ .ok) →
       ∃ r, run i = { trace := [Msg.error { code := .request, reason := r }]
                      outcome := .terminal
                      sendStarted := false }) := by
  constructor
  · intro hurl
    rcases hurl with ⟨r, h⟩ | ⟨r, h⟩
    · exact ⟨r, by simp [run, decode_url_invalidUtf8 h]⟩
    · exact ⟨r, by simp [run, decode_url_parseError h]⟩
  · intro hu hbad
    obtain ⟨r, hr⟩ := decodeHeaders_bad i.dec.headers hbad
    exact ⟨r, by simp [run, decode_headers_error hu hr]⟩

theorem c6_amended_build_errors_witness :
    ∃ r, run c6bInput = { trace := [Msg.error { code := .request, reason := r }]
                          outcome := .terminal
                          sendStarted := false } :=
  (c6_amended_build_errors c6bInput).2 rfl (by decide)

/-- C7.  If the `Req` is dropped with its reply slot open off the initial
thread, it sends the terminal `Cancelled` error; if the slot was already
consumed (by `reply_final` or the silent-abandon `reply_none`), the drop
sends nothing; if it is dropped with the slot open on the initial thread
(the future was never spawned), it sends nothing, sets the flag, and the
`req` NIF raises `bad_runtime`. -/
theorem c7_drop_semantics (s : DropState) :
    (s.callerRefPresent = true → s.onInitialThread = false →
       dropReq s =
         (some (Msg.error { code := .cancelled, reason := "future dropped" }), false)) ∧
    (s.callerRefPresent = false → dropReq s = (none, false)) ∧
    (s.callerRefPresent = true → s.onInitialThread = true →
       dropReq s = (none, true) ∧
       reqSpawnOutcome (dropReq s).2 = .raiseBadRuntime) := by
  rcases s with ⟨cr, it⟩
  cases cr <;> cases it <;> refine ⟨?_, ?_, ?_⟩ <;> intro h <;> simp_all [dropReq, reqSpawnOutcome]

theorem c7_drop_semantics_witness :
    dropReq { callerRefPresent := true, onInitialThread := false } =
      (some (Msg.error { code := .cancelled, reason := "future dropped" }), false) :=
  (c7_drop_semantics { callerRefPresent := true, onInitialThread := false }).1 rfl rfl

/-- C8.  If the upload command channel is observed closed before any command
was received, the engine ends silently: its whole trace is the single
(earlier) initial `next`, so nothing at all is sent from the closure on.  If
the read channel closes while the engine waits between reads, the pull loop
ends silently with no message; in a full run this leaves exactly the earlier
status+headers reply in the trace. -/
theorem c8_silent_termination :
    (∀ (i : RunInput) (rest : List UpEvent), decode i.dec = .ok () →
       i.dec.body = .stream → i.upEvents = .closed :: rest →
       run i = { trace := [Msg.next], outcome := .silent, sendStarted := true }) ∧
    (∀ evs : List ChunkEvent, streamRespGo true [] evs = ([], .silent)) ∧
    (∀ (i : RunInput) (hd : RespHead), decode i.dec = .ok () → i.dec.body ≠ .stream →
       i.respAwait = some (.ok hd) → i.respStream = true → i.reads = [] →
       i.readsClosed = true →
       run i = { trace := [Msg.reply { status := hd.status, headers := hd.headers, body := none }]
                 outcome := .silent
                 sendStarted := true }) := by
  refine ⟨?_, fun evs => rfl, ?_⟩
  · intro i rest hdec hb hup
    simp [run, hdec, hb, hup, streamReq, streamReqGo]
  · intro i hd hdec hb hra hrs hreads hclosed
    simp [run, hdec, hb, hra, respPhase, hrs, streamResp, hreads, hclosed, streamRespGo]

theorem c8_silent_termination_witness :
    run c8Input = { trace := [Msg.next], outcome := .silent, sendStarted := true } :=
  c8_silent_termination.1 c8Input [] (by decide) (by decide) (by decide)

/-- C9.  `send`, `finish_send` and `read` each return the single `BadArg`
failure whenever the corresponding sender is absent (the request was not
configured for that kind of streaming) or already closed. -/
theorem c9_fail_fast (h : ReqHandle) (opts : ReadOpts) :
    (h.reqBodyTx = none ∨ h.reqBodyTx = some false →
       h.send = .badarg ∧ (h.finishSend).1 = .badarg) ∧
    (h.respStreamTx = none ∨ h.respStreamTx = some false →
       h.read opts = .badarg) := by
  rcases h with ⟨bt, rt⟩
  constructor
  · rintro (h1 | h1) <;> rw [show bt = _ from h1] <;>
      exact ⟨rfl, rfl⟩
  · rintro (h1 | h1) <;> rw [show rt = _ from h1] <;> rfl

theorem c9_fail_fast_witness :
    (mkHandle false false).send = .badarg ∧
      ((mkHandle false false).finishSend).1 = .badarg :=
  (c9_fail_fast (mkHandle false false) { length := 1, period := none }).1 (Or.inl rfl)

/-- C10.  `cancel_stream` returns `ok` for every handle state: in particular
when both senders are absent (body and response body both complete, as
`mkHandle false false` builds) and when the channels were already closed by
an earlier `cancel_stream`. -/
theorem c10_cancel_stream_total :
    (∀ h : ReqHandle, (h.cancelStream).1 = .ok) ∧
    (mkHandle false false).reqBodyTx = none ∧
    (mkHandle false false).respStreamTx = none ∧
    ((mkHandle false false).cancelStream).1 = .ok ∧
    (∀ h : ReqHandle, ((h.cancelStream).2.cancelStream).1 = .ok) :=
  ⟨fun _ => rfl, rfl, rfl, rfl, fun _ => rfl⟩

end Erqwest
